import Mathlib

/-!
Verification of the njs-api value-marshaling and object-lifetime bridge.

This file gives a shallow embedding of the core of the njs-api sources
(src/njs-base.h, src/njs-engine-v8.h, src/njs-extension-enum.h) and proves
properties of the embedded definitions.  Machine integers are modelled as
`Int`/`Nat` with explicit two's-complement wrap where the C code performs a
`static_cast`; host `double` values are modelled as rationals (every finite
IEEE-754 double is a rational, and all double operations performed by the
embedded code are exact on the ranges involved); fallible operations return
`Except` with the numeric result code of `Globals::ResultCode` as the error.
-/

namespace njs

/-! ### Result codes (src/njs-base.h, `Globals::ExceptionType` / `Globals::ResultCode`) -/

def kExceptionError : Nat := 1
def kExceptionTypeError : Nat := 2
def kExceptionRangeError : Nat := 3
def kExceptionSyntaxError : Nat := 4
def kExceptionReferenceError : Nat := 5

def kResultOk : Nat := 0
def kResultThrowError : Nat := kExceptionError
def kResultThrowTypeError : Nat := kExceptionTypeError
def kResultThrowRangeError : Nat := kExceptionRangeError
def kResultThrowSyntaxError : Nat := kExceptionSyntaxError
def kResultThrowReferenceError : Nat := kExceptionReferenceError
def kResultInvalidState : Nat := 10
def kResultInvalidHandle : Nat := 11
def kResultOutOfMemory : Nat := 12
def kResultInvalidValue : Nat := 13
def kResultInvalidValueTypeId : Nat := 14
def kResultInvalidValueTypeName : Nat := 15
def kResultInvalidValueCustom : Nat := 16
def kResultInvalidValueRange : Nat := 17
def kResultUnsafeInt64Conversion : Nat := 18
def kResultUnsafeUint64Conversion : Nat := 19
def kResultInvalidArgumentsLength : Nat := 20
def kResultInvalidConstructCall : Nat := 21
def kResultAbstractConstructCall : Nat := 22
def kResultBypass : Nat := 23

def kResultThrowFirst : Nat := kResultThrowError
def kResultThrowLast : Nat := kResultThrowReferenceError
def kResultValueFirst : Nat := kResultInvalidValue
def kResultValueLast : Nat := kResultUnsafeUint64Conversion

/-- Membership in the `InvalidValue*` band of `ResultCode`
(`_kResultValueFirst .. _kResultValueLast` in src/njs-base.h). -/
def inInvalidValueBand (r : Nat) : Prop :=
  kResultValueFirst ≤ r ∧ r ≤ kResultValueLast

instance (r : Nat) : Decidable (inInvalidValueBand r) := by
  unfold inInvalidValueBand; infer_instance

/-! ### Limits (src/njs-base.h, `Globals::Limits`) -/

def kMaxEnumSize : Nat := 64
def kMaxBufferSize : Nat := 256

/-! ### Native integer types and `IntUtils::intCast` (src/njs-base.h)

A native integer type is characterised by its byte size and signedness,
which is exactly the information the C++ template dispatch
(`sizeof`, `TypeTraits<T>::kIsSigned`) uses. -/

structure IntType where
  bytes : Nat
  signed : Bool
  deriving DecidableEq, Repr

def IntType.bits (t : IntType) : Nat := 8 * t.bytes

/-- `std::numeric_limits<T>::max()` of the modelled type. -/
def IntType.maxValue (t : IntType) : Int :=
  if t.signed then 2 ^ (t.bits - 1) - 1 else 2 ^ t.bits - 1

/-- `std::numeric_limits<T>::lowest()` of the modelled type. -/
def IntType.minValue (t : IntType) : Int :=
  if t.signed then -(2 ^ (t.bits - 1)) else 0

/-- The representable range of the modelled type. -/
def IntType.inRange (t : IntType) (x : Int) : Prop :=
  t.minValue ≤ x ∧ x ≤ t.maxValue

instance (t : IntType) (x : Int) : Decidable (t.inRange x) := by
  unfold IntType.inRange; infer_instance

def int8T : IntType := ⟨1, true⟩
def uint8T : IntType := ⟨1, false⟩
def int16T : IntType := ⟨2, true⟩
def uint16T : IntType := ⟨2, false⟩
def int32T : IntType := ⟨4, true⟩
def uint32T : IntType := ⟨4, false⟩
def int64T : IntType := ⟨8, true⟩
def uint64T : IntType := ⟨8, false⟩

/-- `static_cast<Out>(x)` on integers: two's-complement truncation to the
destination's width (the behaviour of the C++ conversions performed by
`IntCastImpl::op`). -/
def staticCast (t : IntType) (x : Int) : Int :=
  let m := x % (2 ^ t.bits)
  if t.signed ∧ 2 ^ (t.bits - 1) ≤ m then m - 2 ^ t.bits else m

/-- `IntUtils::intCast<In, Out>` (src/njs-base.h lines 365-404).  The template
dispatch selects one of three implementations from
`(sizeof(In) > sizeof(Out), TypeTraits<In>::kIsSigned && TypeTraits<Out>::kIsSigned)`:
no check for non-narrowing casts; a one-sided upper-bound check when not both
types are signed; a two-sided check when both are signed.  Returns the result
code and, on success, the stored output value. -/
def intCast (src dst : IntType) (x : Int) : Except Nat Int :=
  if src.bytes > dst.bytes then
    if src.signed ∧ dst.signed then
      -- Signed narrowing: `IntCastImpl<In, Out, 1, 1>`.
      if x < dst.minValue ∨ x > dst.maxValue then .error kResultInvalidValue
      else .ok (staticCast dst x)
    else
      -- Unsigned narrowing: `IntCastImpl<In, Out, 1, 0>`.
      if x > dst.maxValue then .error kResultInvalidValue
      else .ok (staticCast dst x)
  else
    -- Primary template: unchecked cast.
    .ok (staticCast dst x)

/-! ### `IntUtils::isSafeInt` and `doubleToInt64` / `doubleToUint64` (src/njs-base.h) -/

def kMaxSafeInteger : Int := 9007199254740991

/-- `IsSafeIntImpl<T, 8, 1>::op` — the 64-bit signed specialisation. -/
def isSafeIntInt64 (x : Int) : Bool :=
  -kMaxSafeInteger ≤ x ∧ x ≤ kMaxSafeInteger

/-- `IsSafeIntImpl<T, 8, 0>::op` — the 64-bit unsigned specialisation
(the value of a `uint64_t` is a natural number). -/
def isSafeIntUint64 (x : Nat) : Bool :=
  x ≤ 9007199254740991

/-- `IsSafeIntImpl<T, Size, IsSigned>::op` for `Size ≤ 4` — always true. -/
def isSafeIntSmall (_x : Int) : Bool := true

/-- C truncation of a real (double) value toward zero, the behaviour of
`static_cast<int64_t>(double)` for in-range values. -/
def ratTrunc (q : ℚ) : Int :=
  if 0 ≤ q then ⌊q⌋ else ⌈q⌉

/-- `IntUtils::doubleToInt64` (src/njs-base.h lines 443-453).  The double
input is modelled as a rational; every finite double is a rational and the
range check, the truncating cast and the exactness comparison
`(double)x == in` are all exact on the range involved. -/
def doubleToInt64 (q : ℚ) : Except Nat Int :=
  if -(9007199254740991 : ℚ) ≤ q ∧ q ≤ (9007199254740991 : ℚ) then
    let x : Int := ratTrunc q
    if (x : ℚ) = q then .ok x else .error kResultInvalidValue
  else .error kResultInvalidValue

/-- `IntUtils::doubleToUint64` (src/njs-base.h lines 455-465). -/
def doubleToUint64 (q : ℚ) : Except Nat Nat :=
  if (0 : ℚ) ≤ q ∧ q ≤ (9007199254740991 : ℚ) then
    let x : Int := ratTrunc q
    if (x : ℚ) = q then .ok x.toNat else .error kResultInvalidValue
  else .error kResultInvalidValue

/-! ### Host values (the V8 engine's value space, src/njs-engine-v8.h)

A host value is an opaque engine-managed value.  Numbers are V8 doubles,
modelled as rationals; strings are sequences of UTF-16 code units; an object
may carry aligned internal-field pointer slots (used by the wrap bridge).
A handle can also be empty (`v8::Local<v8::Value>()`), distinct from
holding `null`/`undefined`. -/

inductive HostValue where
  | empty
  | undef
  | nullval
  | boolean (b : Bool)
  | number (q : ℚ)
  | strval (s : List Nat)
  | object (internalSlots : List Nat)
  deriving DecidableEq, Repr

/-- `v8::Value::IsBoolean`. -/
def HostValue.isBooleanV (v : HostValue) : Bool :=
  match v with
  | .boolean _ => true
  | _ => false

/-- `v8::Value::IsNumber`. -/
def HostValue.isNumberV (v : HostValue) : Bool :=
  match v with
  | .number _ => true
  | _ => false

/-- `v8::Value::IsString`. -/
def HostValue.isStringV (v : HostValue) : Bool :=
  match v with
  | .strval _ => true
  | _ => false

/-- `v8::Value::IsObject`. -/
def HostValue.isObjectV (v : HostValue) : Bool :=
  match v with
  | .object _ => true
  | _ => false

/-- `v8::Value::IsInt32`: the number is an integer exactly representable as a
32-bit signed integer. -/
def HostValue.isInt32V (v : HostValue) : Bool :=
  match v with
  | .number q => q.den = 1 ∧ -(2 ^ 31) ≤ q.num ∧ q.num ≤ 2 ^ 31 - 1
  | _ => false

/-- `v8::Value::IsUint32`: the number is an integer exactly representable as a
32-bit unsigned integer. -/
def HostValue.isUint32V (v : HostValue) : Bool :=
  match v with
  | .number q => q.den = 1 ∧ 0 ≤ q.num ∧ q.num ≤ 2 ^ 32 - 1
  | _ => false

/-- The numeric value of a host number (`v8::Number::Cast(*in)->Value()`);
`0` for non-numbers (never read on those by the embedded code). -/
def HostValue.numberValue (v : HostValue) : ℚ :=
  match v with
  | .number q => q
  | _ => 0

/-! ### Result codes used by src/njs-engine-v8.h

src/njs-engine-v8.h predates the `Globals::ResultCode` enumeration of
src/njs-base.h and refers to enumerators (`kResultInvalidValueType`,
`kResultInvalidArgumentCommon`, ...) whose defining declaration is not under
src/. -/

/-- Modelled from the spec: the engine bridge's "invalid value type" result
code, used by the `V8ConvertImpl` unpack routines in src/njs-engine-v8.h; its
defining enumerator declaration is not under src/ (the engine header uses an
older result-code enumeration than src/njs-base.h).  Per the spec, it is one
of the **Invalid-value** band codes ("type/range/shape mismatch during
unpacking, sub-typed by whether the diagnostic is a type id, ..."), and band
membership — not the individual value — is what dispatch checks.  It is
mapped to the type-id-diagnosed invalid-value code of src/njs-base.h. -/
def kResultInvalidValueType : Nat := kResultInvalidValueTypeId

/-! ### The conversion engine's unpack routines (src/njs-engine-v8.h) -/

/-- `V8ConvertImpl<T, kTraitIdSafeUint>::Unpack` for `T = uint32_t`
(src/njs-engine-v8.h lines 211-217): requires the host value to be a
`Uint32`, reads it, and narrows with `IntCast` (a no-op check for a 32-bit
destination). -/
def unpackSafeUint32 (v : HostValue) : Except Nat Int :=
  if v.isUint32V then
    intCast uint32T uint32T v.numberValue.num
  else .error kResultInvalidValueType

/-- `V8ConvertImpl<T, kTraitIdUnsafeUint>::Unpack` for `T = uint64_t`
(src/njs-engine-v8.h lines 263-268): requires a host number and converts it
through `DoubleToUint64`. -/
def unpackUnsafeUint64 (v : HostValue) : Except Nat Nat :=
  if v.isNumberV then
    doubleToUint64 v.numberValue
  else .error kResultInvalidValueType

/-! ### `ExecutionContext::ProcessResult` (src/njs-engine-v8.h lines 1509-1513)

`ProcessResult` is the outer dispatch boundary: every generated entry point
(`NJS_BIND_*` trampolines, lines 2233-2317) funnels the result of the native
implementation through it.  It invokes the error-materialisation routine
`internal::V8ReportError` for every result other than `kResultOk`. -/

/-- Whether `ProcessResult(result)` invokes `internal::V8ReportError` —
literally the condition `result != kResultOk` guarding the call. -/
def processResultInvokesReport (result : Nat) : Bool :=
  result != kResultOk

/-- `internal::V8ReportError` (src/njs-engine-v8.h lines 2009-2093): selects
the exception type by a `switch` on the result code (result codes without a
`case` keep the default `kExceptionError`), then unconditionally raises one
host exception via `ctx.ThrowNewException`.  The formatted message text is
not modelled; the returned value is the exception type of the exception that
is thrown. -/
def V8ReportError (result : Nat) : Nat :=
  if result = kResultThrowError ∨ result = kResultThrowTypeError ∨
     result = kResultThrowRangeError ∨ result = kResultThrowSyntaxError ∨
     result = kResultThrowReferenceError then result
  else if result = kResultInvalidValueTypeId ∨ result = kResultInvalidValueTypeName ∨
          result = kResultInvalidValueCustom ∨ result = kResultInvalidArgumentsLength ∨
          result = kResultInvalidValue ∨
          result = kResultInvalidConstructCall ∨ result = kResultAbstractConstructCall then
    kExceptionTypeError
  else kExceptionError

/-- `ExecutionContext::ProcessResult`: `some e` means `V8ReportError` was
invoked and raised a host exception of type `e`; `none` means it was not
invoked. -/
def ProcessResult (result : Nat) : Option Nat :=
  if result ≠ kResultOk then some (V8ReportError result) else none

/-! ### Checked unwrap (spec §4.4 / §6) -/

/-- Modelled from the spec: `unwrapChecked(hostVal, tag) -> nativePtr |
InvalidValue`.  The implementation is not under src/: src/njs-engine-v8.h
contains only the unchecked `internal::V8UnwrapNative` (the spec's
`unwrapUnsafe`, see the comment at src/njs-engine-v8.h lines 2211-2213),
while the checked variant used by src/test/njs_test.cpp
(`ctx.unwrapArgument<ObjectWrap>(0, &other)`, with the type tag `0xFF`
declared via `NJS_BASE_CLASS(ObjectWrap, "Object", 0xFF)`) belongs to the
newer engine header matching src/njs-base.h.  Per the spec, it "validates
both that the host value is an object and that it carries a matching type
tag before returning the native pointer", the bridge keeping the native
pointer and the type tag in two reserved internal slots; failure is
non-fatal and yields `InvalidValue`. -/
def unwrapChecked (v : HostValue) (tag : Nat) : Except Nat Nat :=
  match v with
  | .object (nativePtr :: storedTag :: _) =>
      if storedTag = tag then .ok nativePtr else .error kResultInvalidValue
  | _ => .error kResultInvalidValue

/-- Modelled from the spec: `wrap(hostObj, nativePtr)` under a type tag
stores the native pointer and the tag in the object's two reserved internal
slots (spec §6: "the wrap/unwrap bridge uses two such slots (native pointer,
type tag)"). -/
def wrapWithTag (nativePtr tag : Nat) : HostValue :=
  .object [nativePtr, tag]

/-! ### `internal::WrapData` (src/njs-engine-v8.h lines 1708-1861)

The per-object lifetime record: a native-side reference count and a V8
persistent handle whose weak (collectible, finaliser armed) state is toggled
by `AddRef` / `Release` / `MakeWeak`.  The host GC may invoke the destroy
callback (`WrapData::destroyCallbackT`) only on a handle that is currently
weak — that is the contract of `v8::Persistent::SetWeak` / `ClearWeak`, the
GC weak-reference facility of spec §6. -/

structure WrapState where
  refCount : Nat
  weak : Bool
  finalized : Bool
  deriving DecidableEq, Repr

/-- The state right after `internal::V8WrapNative` (src/njs-engine-v8.h lines
1847-1861): the `WrapData` constructor leaves `_refCount = 0`, the persistent
handle is set, and `MakeWeak` arms the weak callback. -/
def wrapInit : WrapState :=
  { refCount := 0, weak := true, finalized := false }

inductive WrapOp where
  | addRef
  | release
  | gcFinalize
  deriving DecidableEq, Repr

/-- One step of the wrapped-object lifecycle.  `addRef` and `release` are the
`WrapData` methods (lines 1780-1794); `gcFinalize` is the host GC firing the
armed weak callback `destroyCallbackT` (lines 1811-1820), which V8 only does
for a handle in the weak state.  `none` marks a step whose precondition does
not hold (`release` asserts `_refCount > 0`; nothing runs on a finalized
pairing; the GC never fires a non-weak handle). -/
def wrapStep (s : WrapState) (op : WrapOp) : Option WrapState :=
  match op with
  | .addRef =>
      if s.finalized then none
      else some { refCount := s.refCount + 1, weak := false, finalized := false }
  | .release =>
      if s.finalized ∨ s.refCount = 0 then none
      else
        let r := s.refCount - 1
        some { refCount := r, weak := if r = 0 then true else s.weak, finalized := false }
  | .gcFinalize =>
      if s.finalized ∨ s.weak = false then none
      else some { refCount := s.refCount, weak := false, finalized := true }

/-- States reachable from the post-`wrap` state by lifecycle steps. -/
inductive WrapReachable : WrapState → Prop where
  | init : WrapReachable wrapInit
  | step {s s' : WrapState} {op : WrapOp} :
      WrapReachable s → wrapStep s op = some s' → WrapReachable s'

/-! ### `BindingItem` and `internal::V8BindClassHelper`
(src/njs-base.h lines 658-681, src/njs-engine-v8.h lines 1873-1966) -/

def kTypeInvalid : Nat := 0
def kTypeStatic : Nat := 1
def kTypeMethod : Nat := 2
def kTypeGetter : Nat := 3
def kTypeSetter : Nat := 4

structure BindingItem where
  type : Nat
  flags : Nat
  name : String
  data : Nat
  deriving DecidableEq, Repr

/-- One entry registered on the class / prototype template by
`V8BindClassHelper`.  For an accessor, `readOnly` records whether
`v8::ReadOnly` was added to the property attributes (done exactly when no
setter is present). -/
inductive ClassEntry where
  | staticFn (name : String) (fn : Nat)
  | methodFn (name : String) (fn : Nat)
  | accessor (name : String) (getter : Nat) (setter : Option Nat) (readOnly : Bool)
  deriving DecidableEq, Repr

/-- `internal::V8BindClassHelper` (src/njs-engine-v8.h lines 1873-1966),
restricted to what it registers.  The scan walks the items left to right;
for a getter or setter it pairs with the next item when that item is of the
opposite kind with the same name (consuming both); a setter left without a
getter hits `NJS_ASSERT(!"NJS_BIND_SET() used without having a getter...")`
followed by `::abort()`, modelled as `none`.  An unknown item type only
trips a (debug-only) assertion and registers nothing. -/
def V8BindClassHelper : List BindingItem → Option (List ClassEntry)
  | [] => some []
  | item :: rest =>
    if item.type = kTypeStatic then
      (V8BindClassHelper rest).map (fun es => .staticFn item.name item.data :: es)
    else if item.type = kTypeMethod then
      (V8BindClassHelper rest).map (fun es => .methodFn item.name item.data :: es)
    else if item.type = kTypeGetter ∨ item.type = kTypeSetter then
      -- `pairedType` is the opposite kind; on an adjacent pair both items are
      -- consumed (`i++`) and the accessor gets both callbacks.
      match rest with
      | next :: rest2 =>
        if next.type = (if item.type = kTypeGetter then kTypeSetter else kTypeGetter) ∧
           next.name = item.name then
          (V8BindClassHelper rest2).map (fun es =>
            .accessor item.name
              (if item.type = kTypeGetter then item.data else next.data)
              (some (if item.type = kTypeGetter then next.data else item.data))
              false :: es)
        else if item.type = kTypeGetter then
          (V8BindClassHelper (next :: rest2)).map
            (fun es => .accessor item.name item.data none true :: es)
        else none
      | [] =>
        if item.type = kTypeGetter then
          some [.accessor item.name item.data none true]
        else none
    else
      V8BindClassHelper rest
termination_by items => items.length
decreasing_by all_goals (simp_wf; try omega)

/-! ### `Internal::EnumUtils` (src/njs-extension-enum.h lines 32-128)

The enum table blob is a sequence of NUL-terminated byte strings
(`enumData`); reading past the end of the modelled list yields 0, matching
the zero padding of `EnumT<Size>::_data` (sized `(Size + 3) & ~3` and
value-initialised from a string literal, so the blob is followed by NUL
bytes).  `parse` takes the input as UTF-16 code units (`CharType =
uint16_t`), modelled as naturals. -/

namespace EnumUtils

def kAltEnumMarker : Nat := 64   -- '@'
def kEnumNotFound : Nat := 4294967295  -- ~(unsigned int)0

def isIgnorableChar (c : Nat) : Bool := c = 45  -- '-'

/-- `unsigned int` increment: `index++`. -/
def incWrap (i : Nat) : Nat := (i + 1) % 4294967296

/-- `unsigned int` decrement: `index--`. -/
def decWrap (i : Nat) : Nat := (i + 4294967295) % 4294967296

/-- `*pa++` — read one byte, advance; reading past the end yields 0. -/
def pRead : List Nat → Nat × List Nat
  | [] => (0, [])
  | c :: r => (c, r)

/-- `while (*pa++) continue;` — consume up to and including the next NUL. -/
def skipString : List Nat → List Nat
  | [] => []
  | 0 :: r => r
  | _ :: r => skipString r

/-- The inner comparison loop of `parse` (`while (++pb != pbEnd)` with
`L_Repeat`): compares the remaining input code units against the table
suffix `pa` (the current token after its first byte).  `none` means the
token matched to its terminating NUL with the input exhausted (`parse`
returns the current index); `some rest` means no match, with `rest` the
table suffix right after the current record's NUL (the `L_End` path consumed
the NUL during comparison; the `L_NoMatch` path skips to it). -/
def matchTail : List Nat → List Nat → Option (List Nat)
  | [], [] => none
  | 0 :: _, [] => none
  | _ :: r, [] => some (skipString r)
  | [], _ :: _ => some []
  | 0 :: r, _ :: _ => some r
  | ca :: r, cb :: ir =>
    if ca = cb then matchTail r ir
    else if isIgnorableChar ca then matchTail r (cb :: ir)
    else some (skipString r)

/-- One record comparison of `parse`: first byte of the token against
`cbFirst` (`in[0]`, compared without the ignorable-character rule), then the
inner loop.  `none` = matched; `some rest` = continue the scan at `rest`. -/
def recordStep (inRest : List Nat) (cbFirst ca : Nat) (r : List Nat) :
    Option (List Nat) :=
  if ca = cbFirst then matchTail r inRest
  else some (skipString r)

theorem skipString_length_le (l : List Nat) : (skipString l).length ≤ l.length := by
  induction l with
  | nil => simp [skipString]
  | cons c r ih =>
    cases c with
    | zero => simp [skipString]
    | succ n =>
      have hs : skipString ((n + 1) :: r) = skipString r := by simp [skipString]
      rw [hs]
      exact le_trans ih (by simp)

theorem matchTail_some_length_le {pa inp rest : List Nat}
    (h : matchTail pa inp = some rest) : rest.length ≤ pa.length := by
  induction pa generalizing inp rest with
  | nil =>
    cases inp with
    | nil => simp [matchTail] at h
    | cons cb ir => simp [matchTail] at h; simp [← h]
  | cons c r ih =>
    cases c with
    | zero =>
      cases inp with
      | nil => simp [matchTail] at h
      | cons cb ir => simp [matchTail] at h; simp [← h]
    | succ n =>
      cases inp with
      | nil =>
        have h' : skipString r = rest := by simpa [matchTail] using h
        rw [← h']
        exact le_trans (skipString_length_le r) (by simp)
      | cons cb ir =>
        simp only [matchTail] at h
        by_cases hcb : n + 1 = cb
        · simp only [hcb, if_true] at h
          exact le_trans (ih h) (by simp)
        · by_cases hig : isIgnorableChar (n + 1)
          · simp only [hcb, hig, if_true, if_false] at h
            exact le_trans (ih h) (by simp)
          · have h' : skipString r = rest := by simpa [hcb, hig] using h
            rw [← h']
            exact le_trans (skipString_length_le r) (by simp)

theorem recordStep_some_length_le {inRest r rest : List Nat} {cbFirst ca : Nat}
    (h : recordStep inRest cbFirst ca r = some rest) : rest.length ≤ r.length := by
  unfold recordStep at h
  by_cases hc : ca = cbFirst
  · simp [hc] at h; exact matchTail_some_length_le h
  · simp [hc] at h; exact h ▸ skipString_length_le r

theorem pRead_snd_length_le (l : List Nat) : (pRead l).2.length ≤ l.length := by
  cases l <;> simp [pRead]

/-- The outer scan loop of `Internal::EnumUtils::parse`
(src/njs-extension-enum.h lines 47-93): `inRest` is the input after its
first code unit (`cbFirst`), `pa` the remaining table blob and `index` the
running record index (an `unsigned int`, hence the wrapping arithmetic for
the `index--` performed on an alternate-marker record). -/
def parseMain (inRest : List Nat) (cbFirst : Nat) : List Nat → Nat → Nat
  | [], _ => kEnumNotFound
  | c :: r, index =>
    if c = 0 then kEnumNotFound
    else if c = kAltEnumMarker then
      match hm : recordStep inRest cbFirst (pRead r).1 (pRead r).2 with
      | none => decWrap index
      | some rest => parseMain inRest cbFirst rest (incWrap (decWrap index))
    else
      match hm : recordStep inRest cbFirst c r with
      | none => index
      | some rest => parseMain inRest cbFirst rest (incWrap index)
termination_by pa _ => pa.length
decreasing_by
  · exact Nat.lt_succ_of_le
      (le_trans (recordStep_some_length_le hm) (pRead_snd_length_le r))
  · exact Nat.lt_succ_of_le (recordStep_some_length_le hm)

/-- `Internal::EnumUtils::parse`: returns the index of the record matching
the input code units, or `kEnumNotFound`. -/
def parse (inp : List Nat) (enumData : List Nat) : Nat :=
  match inp with
  | [] => kEnumNotFound
  | cbFirst :: rest => parseMain rest cbFirst enumData 0

/-- The record-skipping loop of `Internal::EnumUtils::stringify`
(`while (i != index) ...`, src/njs-extension-enum.h lines 101-115): `none`
models returning `kEnumNotFound`; `some p` is the blob position at which the
token copy starts. -/
def stringifySkip (index : Nat) : List Nat → Nat → Option (List Nat)
  | p, i =>
    if i = index then some p
    else
      match p with
      | [] => none
      | 0 :: _ => none
      | _ :: r => stringifySkip index (skipString r) (if p.head! = kAltEnumMarker then i else incWrap i)
termination_by p _ => p.length
decreasing_by
  exact Nat.lt_succ_of_le (skipString_length_le r)

/-- The copy loop of `stringify` (`for (;;) { c = *p++; if (!c) break; ... }`). -/
def copyToken : List Nat → List Nat
  | [] => []
  | 0 :: _ => []
  | c :: r => c :: copyToken r

/-- `Internal::EnumUtils::stringify` (src/njs-extension-enum.h lines
96-126): the C function writes the token into the caller's buffer and
returns its size, or returns `kEnumNotFound`; the model returns the written
token itself (`none` for `kEnumNotFound`). -/
def stringify (index : Nat) (enumData : List Nat) : Option (List Nat) :=
  (stringifySkip index enumData 0).map copyToken

/-- The `unsigned int` return value of the C `stringify` (token size, or the
`kEnumNotFound` sentinel). -/
def stringifySize (index : Nat) (enumData : List Nat) : Nat :=
  match stringify index enumData with
  | none => kEnumNotFound
  | some tok => tok.length

end EnumUtils

/-! ### Host string construction (src/njs-engine-v8.h) -/

/-- `v8::String::kMaxLength` of the targeted V8 (`njs::kMaxStringLength`,
src/njs-engine-v8.h line 45).  The exact value is the engine's; only
`tokens ≤ kMaxEnumSize ≪ kMaxStringLength` matters to the claims. -/
def kMaxStringLength : Nat := 2 ^ 28 - 16

/-- `Context::NewString(Utf16Ref(...))` via `internal::V8NewString`
(src/njs-engine-v8.h lines 153-162): produces an empty (invalid) handle when
the length exceeds `kMaxStringLength`, otherwise a new host string. -/
def newString (s : List Nat) : HostValue :=
  if s.length ≤ kMaxStringLength then .strval s else .empty

/-- `ctx.newEmptyString()`. -/
def newEmptyString : HostValue := .strval []

/-- `njs::ResultOf(v8::Local<T>)` (src/njs-engine-v8.h lines 52-58):
`kResultInvalidHandle` for an empty handle, else `kResultOk`. -/
def resultOfValue (v : HostValue) : Nat :=
  if v = .empty then kResultInvalidHandle else kResultOk

/-- The code units of a host string (empty for non-strings; the embedded
code only reads it after an `isString` check). -/
def HostValue.stringContent (v : HostValue) : List Nat :=
  match v with
  | .strval s => s
  | _ => []

/-- `ctx.readUtf16(in, content, size)`: number of code units written, i.e.
at most `size` units of the string's content (`v8::String::Write`). -/
def readUtf16 (v : HostValue) (size : Nat) : Nat :=
  min size v.stringContent.length

/-! ### `njs::Enum` (src/njs-extension-enum.h lines 134-213)

The model merges the `Enum` header (`_start`, `_end`, `_size`, `_flags`)
with the table blob that `EnumT<Size>` stores right behind it
(`Enum::data()`).  The native enumeration type `T` is modelled as a 32-bit
`int` (the underlying type of a C++ unscoped enumeration). -/

structure EnumT where
  start : Int
  stop : Int
  size : Int
  flags : Int
  data : List Nat
  deriving DecidableEq, Repr

/-- `Enum::serialize` (src/njs-extension-enum.h lines 142-156): computes the
record index with wrapping `unsigned int` arithmetic, stringifies it, and on
`kEnumNotFound` or an empty token sets the output to a new empty string and
returns `kResultInvalidValue`; otherwise the output is a new host string of
the token and the result is `resultOf(out)`.  Returns (result code, out). -/
def EnumT.serialize (e : EnumT) (inVal : Int) : Nat × HostValue :=
  let index : Nat := ((inVal - e.start) % 4294967296).toNat
  match EnumUtils.stringify index e.data with
  | none => (kResultInvalidValue, newEmptyString)
  | some tok =>
    -- `size == Internal::EnumUtils::kEnumNotFound || size == 0`
    if tok.length = EnumUtils.kEnumNotFound ∨ tok.length = 0 then
      (kResultInvalidValue, newEmptyString)
    else
      (resultOfValue (newString tok), newString tok)

/-- `Enum::deserialize` (src/njs-extension-enum.h lines 158-175): fails with
`kResultInvalidValue` for a non-string input, a length outside
`1..kMaxEnumSize`, a short UTF-16 read, or an unrecognised token; otherwise
the output is `static_cast<T>(index + (unsigned int)_start)`. -/
def EnumT.deserialize (e : EnumT) (v : HostValue) : Except Nat Int :=
  if ¬ v.isStringV then .error kResultInvalidValue
  else
    let s := v.stringContent
    if s.length = 0 ∨ s.length > kMaxEnumSize ∨ readUtf16 v s.length < s.length then
      .error kResultInvalidValue
    else
      let index := EnumUtils.parse s e.data
      if index = EnumUtils.kEnumNotFound then .error kResultInvalidValue
      else .ok (staticCast int32T
        (((index + (e.start % 4294967296).toNat) % 4294967296 : Nat) : Int))

/-! ## Supporting lemmas -/

theorem IntType.two_pow_bits_eq {t : IntType} (hb : 1 ≤ t.bytes) :
    (2 : Int) ^ t.bits = 2 * 2 ^ (t.bits - 1) := by
  have h1 : 1 ≤ t.bits := by unfold IntType.bits; omega
  conv_lhs => rw [show t.bits = (t.bits - 1) + 1 by omega]
  rw [pow_succ]
  ring

theorem staticCast_eq_of_inRange {t : IntType} {x : Int} (hb : 1 ≤ t.bytes)
    (h : t.inRange x) : staticCast t x = x := by
  obtain ⟨h1, h2⟩ := h
  have hBpos : (0 : Int) < 2 ^ t.bits := by positivity
  have hB2 : (2 : Int) ^ t.bits = 2 * 2 ^ (t.bits - 1) := IntType.two_pow_bits_eq hb
  have hHpos : (0 : Int) < 2 ^ (t.bits - 1) := by positivity
  unfold staticCast
  cases hs : t.signed with
  | false =>
    simp only [IntType.minValue, IntType.maxValue, hs, if_false] at h1 h2
    have hm : x % 2 ^ t.bits = x := Int.emod_eq_of_lt h1 (by omega)
    simp [hm, hs]
  | true =>
    simp only [IntType.minValue, IntType.maxValue, hs, if_true] at h1 h2
    by_cases hx : 0 ≤ x
    · have hm : x % 2 ^ t.bits = x := Int.emod_eq_of_lt hx (by omega)
      simp only [hm, hs, true_and]
      rw [if_neg (by omega)]
    · have hx' : x % 2 ^ t.bits = x + 2 ^ t.bits := by
        have : (x + 2 ^ t.bits) % 2 ^ t.bits = x % 2 ^ t.bits := by
          simpa using @Int.add_mul_emod_self_left x (2 ^ t.bits) 1
        rw [← this, Int.emod_eq_of_lt (by omega) (by omega)]
      simp only [hx', hs, true_and]
      rw [if_pos (by omega)]
      ring

/-! ## Claims -/

/-- Claim C1, counterexample: `intCast` from `int64_t` to `uint32_t` at the
source value `-1`: `-1` is outside `uint32_t`'s representable range and the
widths are strictly narrowing, yet the cast returns `Ok` and stores
`4294967295` — it neither fails with `InvalidValue` nor preserves the
numeric value (the dispatched `IntCastImpl<In, Out, 1, 0>` only checks the
upper bound). -/
theorem intCast_c1_counterexample :
    int64T.bytes > uint32T.bytes ∧
    ¬ uint32T.inRange (-1) ∧
    intCast int64T uint32T (-1) = .ok 4294967295 ∧
    (4294967295 : Int) ≠ -1 := by
  refine ⟨by decide, by decide, ?_, by decide⟩
  simp only [intCast, int64T, uint32T]
  rw [if_pos (by decide), if_neg (by decide), if_neg (by decide)]
  exact congrArg Except.ok (by decide)

/-- Claim C1 (amended): for native integer types `A`, `B` with
`width(A) > width(B)`, the narrowing `intCast` fails with `InvalidValue`
when the source value is above `B`'s maximum, and — when both `A` and `B`
are signed — also when it is below `B`'s minimum; a source value within
`B`'s range is returned exactly.  However a source value below `B`'s
minimum with `A` and `B` not both signed (a negative signed value narrowed
to an unsigned type) is *not* rejected: the cast succeeds and stores the
value reduced into `B`'s width (two's-complement wrap). -/
theorem intCast_c1_amended (src dst : IntType) (x : Int)
    (hb : 1 ≤ dst.bytes) (hn : dst.bytes < src.bytes) :
    (dst.inRange x → intCast src dst x = .ok x) ∧
    (x > dst.maxValue → intCast src dst x = .error kResultInvalidValue) ∧
    (x < dst.minValue →
      if src.signed ∧ dst.signed then
        intCast src dst x = .error kResultInvalidValue
      else
        intCast src dst x = .ok (staticCast dst x)) := by
  have hgt : src.bytes > dst.bytes := hn
  have hminmax : dst.minValue ≤ dst.maxValue := by
    have hHpos : (0 : Int) < 2 ^ (dst.bits - 1) := by positivity
    have hBpos : (0 : Int) < 2 ^ dst.bits := by positivity
    unfold IntType.minValue IntType.maxValue
    cases dst.signed <;> simp <;> omega
  refine ⟨?_, ?_, ?_⟩
  · intro hin
    obtain ⟨h1, h2⟩ := hin
    unfold intCast
    rw [if_pos hgt]
    by_cases hs : src.signed ∧ dst.signed
    · rw [if_pos hs, if_neg (by omega), staticCast_eq_of_inRange hb ⟨h1, h2⟩]
    · rw [if_neg hs, if_neg (by omega), staticCast_eq_of_inRange hb ⟨h1, h2⟩]
  · intro hgtmax
    unfold intCast
    rw [if_pos hgt]
    by_cases hs : src.signed ∧ dst.signed
    · rw [if_pos hs, if_pos (Or.inr hgtmax)]
    · rw [if_neg hs, if_pos hgtmax]
  · intro hltmin
    by_cases hs : src.signed ∧ dst.signed
    · rw [if_pos hs]
      unfold intCast
      rw [if_pos hgt, if_pos hs, if_pos (Or.inl hltmin)]
    · rw [if_neg hs]
      unfold intCast
      rw [if_pos hgt, if_neg hs, if_neg (by omega)]

/-- Claim C1, witness for the amended theorem at concrete inputs:
`int64_t → uint32_t` keeps `7` exactly and rejects `2^32`. -/
theorem intCast_c1_amended_witness :
    1 ≤ uint32T.bytes ∧ uint32T.bytes < int64T.bytes ∧
    intCast int64T uint32T 7 = .ok 7 ∧
    intCast int64T uint32T 4294967296 = .error kResultInvalidValue := by
  refine ⟨by decide, by decide, ?_, ?_⟩
  · exact (intCast_c1_amended int64T uint32T 7 (by decide) (by decide)).1 (by decide)
  · exact (intCast_c1_amended int64T uint32T 4294967296 (by decide) (by decide)).2.1
      (by decide)

theorem ratTrunc_intCast (n : Int) : ratTrunc (n : ℚ) = n := by
  unfold ratTrunc
  split
  · exact Int.floor_intCast n
  · exact Int.ceil_intCast n

theorem doubleToInt64_intCast {n : Int} (h1 : -9007199254740991 ≤ n)
    (h2 : n ≤ 9007199254740991) : doubleToInt64 (n : ℚ) = .ok n := by
  unfold doubleToInt64
  rw [if_pos ⟨by exact_mod_cast h1, by exact_mod_cast h2⟩]
  simp [ratTrunc_intCast]

theorem doubleToInt64_invalid {q : ℚ}
    (h : ¬ ∃ n : Int, -9007199254740991 ≤ n ∧ n ≤ 9007199254740991 ∧ q = (n : ℚ)) :
    doubleToInt64 q = .error kResultInvalidValue := by
  unfold doubleToInt64
  split
  next hcond =>
    obtain ⟨hl, hr⟩ := hcond
    dsimp only
    by_cases heq : ((ratTrunc q : Int) : ℚ) = q
    · exfalso
      apply h
      refine ⟨ratTrunc q, ?_, ?_, heq.symm⟩
      · rw [← heq] at hl; exact_mod_cast hl
      · rw [← heq] at hr; exact_mod_cast hr
    · rw [if_neg heq]
  next => rfl

theorem doubleToUint64_natCast {n : Nat} (h2 : n ≤ 9007199254740991) :
    doubleToUint64 (n : ℚ) = .ok n := by
  unfold doubleToUint64
  rw [if_pos ⟨by positivity, by exact_mod_cast h2⟩]
  have hcast : ((n : Int) : ℚ) = (n : ℚ) := by push_cast; rfl
  rw [← hcast, ratTrunc_intCast]
  simp

/-- Claim C6: for 64-bit signed and unsigned inputs `isSafeInt x` holds
exactly when `|x| ≤ 2^53 - 1` (in particular it accepts `2^53 - 1` and
rejects `2^53`), and `doubleToInt64` returns every integer double in
`[-(2^53 - 1), 2^53 - 1]` exactly while failing with `InvalidValue` on every
other double (e.g. `3/2`, or `2^53`). -/
theorem safeInt_c6_boundary :
    (∀ x : Int, isSafeIntInt64 x = true ↔ (-(2 ^ 53 - 1) ≤ x ∧ x ≤ 2 ^ 53 - 1)) ∧
    (∀ x : Nat, isSafeIntUint64 x = true ↔ x ≤ 2 ^ 53 - 1) ∧
    isSafeIntInt64 (2 ^ 53 - 1) = true ∧ isSafeIntInt64 (2 ^ 53) = false ∧
    isSafeIntUint64 (2 ^ 53 - 1) = true ∧ isSafeIntUint64 (2 ^ 53) = false ∧
    (∀ n : Int, -(2 ^ 53 - 1) ≤ n → n ≤ 2 ^ 53 - 1 → doubleToInt64 (n : ℚ) = .ok n) ∧
    (∀ q : ℚ,
      (¬ ∃ n : Int, -(2 ^ 53 - 1) ≤ n ∧ n ≤ 2 ^ 53 - 1 ∧ q = (n : ℚ)) →
      doubleToInt64 q = .error kResultInvalidValue) ∧
    doubleToInt64 (3 / 2 : ℚ) = .error kResultInvalidValue ∧
    doubleToInt64 ((2 : ℚ) ^ 53) = .error kResultInvalidValue := by
  refine ⟨?_, ?_, by decide, by decide, by decide, by decide, ?_, ?_, ?_, ?_⟩
  · intro x
    simp only [isSafeIntInt64, kMaxSafeInteger, decide_eq_true_eq, Bool.and_eq_true]
    constructor
    · rintro ⟨h1, h2⟩
      constructor <;> [skip; skip] <;> omega
    · rintro ⟨h1, h2⟩
      exact ⟨by omega, by omega⟩
  · intro x
    simp only [isSafeIntUint64, decide_eq_true_eq]
    omega
  · intro n h1 h2
    exact doubleToInt64_intCast (by omega) (by omega)
  · intro q h
    apply doubleToInt64_invalid
    rintro ⟨n, h1, h2, heq⟩
    exact h ⟨n, by omega, by omega, heq⟩
  · unfold doubleToInt64
    rw [if_pos (by norm_num)]
    have hf : ratTrunc (3 / 2 : ℚ) = 1 := by
      unfold ratTrunc
      rw [if_pos (by norm_num)]
      rw [Int.floor_eq_iff]
      constructor <;> norm_num
    dsimp only
    rw [hf, if_neg (by norm_num)]
  · unfold doubleToInt64
    rw [if_neg (by norm_num)]

/-- Claim C6, witness at concrete inputs: `doubleToInt64` keeps the integer
double `5` exactly, and rejects the non-integer rational double `7/4`. -/
theorem safeInt_c6_boundary_witness :
    isSafeIntInt64 (2 ^ 53 - 1) = true ∧
    doubleToInt64 ((5 : Int) : ℚ) = .ok 5 ∧
    doubleToInt64 (7 / 4 : ℚ) = .error kResultInvalidValue := by
  refine ⟨safeInt_c6_boundary.2.2.1, ?_, ?_⟩
  · exact (safeInt_c6_boundary.2.2.2.2.2.2.1) 5 (by norm_num) (by norm_num)
  · apply (safeInt_c6_boundary.2.2.2.2.2.2.2.1) (7 / 4 : ℚ)
    rintro ⟨n, _, _, heq⟩
    have h4 : (7 : ℚ) = 4 * n := by
      field_simp at heq
      linarith
    have : (7 : ℤ) = 4 * n := by exact_mod_cast h4
    omega

/-- Claim C9: unpacking a host value holding the number `4294967296` (2^32)
into a native 32-bit unsigned integer fails with an invalid-value-band code
(the host value is not a `Uint32`), while unpacking the same host value into
a native 64-bit unsigned integer succeeds with output `4294967296`. -/
theorem unpack_c9_uint32_vs_uint64 :
    unpackSafeUint32 (.number 4294967296) = .error kResultInvalidValueType ∧
    inInvalidValueBand kResultInvalidValueType ∧
    unpackUnsafeUint64 (.number 4294967296) = .ok 4294967296 := by
  refine ⟨?_, by decide, ?_⟩
  · unfold unpackSafeUint32
    rw [if_neg ?_]
    simp only [HostValue.isUint32V, Rat.num_ofNat, Rat.den_ofNat]
    norm_num
  · unfold unpackUnsafeUint64
    rw [if_pos (by simp [HostValue.isNumberV])]
    have h := @doubleToUint64_natCast 4294967296 (by norm_num)
    have hc : ((4294967296 : Nat) : ℚ) = (4294967296 : ℚ) := by norm_num
    rw [hc] at h
    simpa [HostValue.numberValue] using h

/-- Claim C2: documentation of `kResultBypass` (src/njs-base.h lines 247-250)
and the spec require that `Bypass` never reaches error materialisation, but
`ExecutionContext::ProcessResult` invokes `internal::V8ReportError` for every
result other than `kResultOk` — including `kResultBypass`, which thereby
raises a second host exception. -/
theorem processResult_c2_bypass_reaches_report :
    kResultBypass ≠ kResultOk ∧
    processResultInvokesReport kResultBypass = true ∧
    ProcessResult kResultBypass = some kExceptionError := by
  decide

/-- Claim C3: the checked unwrap validates that the host value is an object
carrying the expected type tag in the internal slot next to the native
pointer: unwrapping a wrapped object with the right tag returns the stored
native pointer; a non-object input or a type-tag mismatch yields
`kResultInvalidValue` (non-fatally); and any successful unwrap certifies
that the input was an object whose two leading internal slots were the
returned pointer and the requested tag. -/
theorem unwrapChecked_c3_validates :
    (∀ ptr tag : Nat, unwrapChecked (wrapWithTag ptr tag) tag = .ok ptr) ∧
    (∀ (v : HostValue) (tag : Nat), v.isObjectV = false →
      unwrapChecked v tag = .error kResultInvalidValue) ∧
    (∀ ptr t tag : Nat, t ≠ tag →
      unwrapChecked (wrapWithTag ptr t) tag = .error kResultInvalidValue) ∧
    (∀ (v : HostValue) (tag p : Nat), unwrapChecked v tag = .ok p →
      ∃ restSlots, v = .object (p :: tag :: restSlots)) := by
  refine ⟨?_, ?_, ?_, ?_⟩
  · intro ptr tag
    simp [unwrapChecked, wrapWithTag]
  · intro v tag hv
    match v with
    | .empty | .undef | .nullval | .boolean _ | .number _ | .strval _ =>
        simp [unwrapChecked]
    | .object slots => simp [HostValue.isObjectV] at hv
  · intro ptr t tag hne
    simp [unwrapChecked, wrapWithTag, hne]
  · intro v tag p h
    match v with
    | .empty | .undef | .nullval | .boolean _ | .number _ | .strval _ =>
        simp [unwrapChecked] at h
    | .object [] => simp [unwrapChecked] at h
    | .object [a] => simp [unwrapChecked] at h
    | .object (a :: b :: rest2) =>
        by_cases hb : b = tag
        · subst hb
          have h' : a = p := by simpa [unwrapChecked] using h
          exact ⟨rest2, by rw [h']⟩
        · simp [unwrapChecked, hb] at h

/-- Claim C3, witness at concrete inputs: wrap stores pointer `12` under tag
`255`; unwrap with tag `255` returns `12`, with tag `7` fails, and on the
non-object number `3` fails. -/
theorem unwrapChecked_c3_validates_witness :
    unwrapChecked (wrapWithTag 12 255) 255 = .ok 12 ∧
    (HostValue.number 3).isObjectV = false ∧
    unwrapChecked (.number 3) 255 = .error kResultInvalidValue ∧
    (7 : Nat) ≠ 255 ∧
    unwrapChecked (wrapWithTag 12 7) 255 = .error kResultInvalidValue := by
  refine ⟨unwrapChecked_c3_validates.1 12 255, by decide, ?_, by decide, ?_⟩
  · exact unwrapChecked_c3_validates.2.1 (.number 3) 255 (by decide)
  · exact unwrapChecked_c3_validates.2.2.1 12 7 255 (by decide)

theorem wrapStep_addRef_eq (s : WrapState) :
    wrapStep s .addRef =
      if s.finalized then none
      else some { refCount := s.refCount + 1, weak := false, finalized := false } := rfl

theorem wrapStep_release_eq (s : WrapState) :
    wrapStep s .release =
      if s.finalized ∨ s.refCount = 0 then none
      else some { refCount := s.refCount - 1,
                  weak := if s.refCount - 1 = 0 then true else s.weak,
                  finalized := false } := rfl

theorem wrapStep_gcFinalize_eq (s : WrapState) :
    wrapStep s .gcFinalize =
      if s.finalized ∨ s.weak = false then none
      else some { refCount := s.refCount, weak := false, finalized := true } := rfl

/-- Lifecycle invariant of `internal::WrapData`: in every reachable state a
weak (finaliser-armed) handle has reference count zero. -/
theorem wrapReachable_weak_refZero {s : WrapState} (h : WrapReachable s) :
    s.weak = true → s.refCount = 0 := by
  induction h with
  | init => intro; rfl
  | @step s s' op hr hstep ih =>
    cases op with
    | addRef =>
      rw [wrapStep_addRef_eq] at hstep
      split at hstep
      · exact absurd hstep (by simp)
      · intro hw
        simp only [Option.some.injEq] at hstep
        rw [← hstep] at hw
        simp at hw
    | release =>
      rw [wrapStep_release_eq] at hstep
      split at hstep
      · exact absurd hstep (by simp)
      · next hcond =>
        simp only [Option.some.injEq] at hstep
        intro hw
        rw [← hstep] at hw ⊢
        simp only at hw ⊢
        by_cases hz : s.refCount - 1 = 0
        · exact hz
        · rw [if_neg hz] at hw
          have := ih hw
          omega
    | gcFinalize =>
      rw [wrapStep_gcFinalize_eq] at hstep
      split at hstep
      · exact absurd hstep (by simp)
      · next hcond =>
        simp only [Option.some.injEq] at hstep
        intro hw
        rw [← hstep] at hw
        simp at hw

/-- Claim C4: immediately after `wrap` the reference count is 0 and the
handle is weak (collectible); `addRef` always leaves the count positive and
the handle strong; a `release` from count 1 brings the count back to 0 and
re-arms the weak state; and in every reachable state the finaliser (the GC
weak callback `destroyCallbackT`) can only fire when the reference count is
0 — never while it is positive. -/
theorem wrap_c4_lifetime :
    (wrapInit.refCount = 0 ∧ wrapInit.weak = true) ∧
    (∀ s s' : WrapState, wrapStep s .addRef = some s' →
      0 < s'.refCount ∧ s'.weak = false) ∧
    (∀ s s' : WrapState, s.refCount = 1 → wrapStep s .release = some s' →
      s'.refCount = 0 ∧ s'.weak = true) ∧
    (∀ s : WrapState, WrapReachable s → s.weak = true → s.refCount = 0) ∧
    (∀ s s' : WrapState, WrapReachable s → wrapStep s .gcFinalize = some s' →
      s.refCount = 0) := by
  refine ⟨⟨rfl, rfl⟩, ?_, ?_, ?_, ?_⟩
  · intro s s' hstep
    rw [wrapStep_addRef_eq] at hstep
    split at hstep
    · exact absurd hstep (by simp)
    · simp only [Option.some.injEq] at hstep
      rw [← hstep]
      exact ⟨Nat.succ_pos _, rfl⟩
  · intro s s' h1 hstep
    rw [wrapStep_release_eq] at hstep
    split at hstep
    · exact absurd hstep (by simp)
    · simp only [Option.some.injEq] at hstep
      rw [← hstep]
      simp [h1]
  · intro s hr
    exact wrapReachable_weak_refZero hr
  · intro s s' hr hstep
    rw [wrapStep_gcFinalize_eq] at hstep
    split at hstep
    · exact absurd hstep (by simp)
    · next hcond =>
      push_neg at hcond
      exact wrapReachable_weak_refZero hr (by simpa using hcond.2)

/-- Claim C4, witness: the concrete lifecycle `wrap; addRef; release;
gcFinalize` — the post-wrap state is weak with count 0, `addRef` yields
count 1 strong, `release` restores count 0 weak, and the GC step fires only
there, observing count 0. -/
theorem wrap_c4_lifetime_witness :
    (wrapStep wrapInit .addRef =
      some { refCount := 1, weak := false, finalized := false }) ∧
    ({ refCount := 1, weak := false, finalized := false } : WrapState).refCount = 1 ∧
    (wrapStep { refCount := 1, weak := false, finalized := false } .release =
      some { refCount := 0, weak := true, finalized := false }) ∧
    (0 < ({ refCount := 1, weak := false, finalized := false } : WrapState).refCount ∧
      ({ refCount := 1, weak := false, finalized := false } : WrapState).weak = false) ∧
    (({ refCount := 0, weak := true, finalized := false } : WrapState).refCount = 0 ∧
      ({ refCount := 0, weak := true, finalized := false } : WrapState).weak = true) ∧
    ({ refCount := 0, weak := true, finalized := false } : WrapState).refCount = 0 := by
  have hadd : wrapStep wrapInit .addRef =
      some { refCount := 1, weak := false, finalized := false } := by decide
  have hrel : wrapStep { refCount := 1, weak := false, finalized := false } .release =
      some { refCount := 0, weak := true, finalized := false } := by decide
  have hreach1 : WrapReachable { refCount := 1, weak := false, finalized := false } :=
    WrapReachable.step WrapReachable.init hadd
  have hreach0 : WrapReachable { refCount := 0, weak := true, finalized := false } :=
    WrapReachable.step hreach1 hrel
  have hgc : wrapStep { refCount := 0, weak := true, finalized := false } .gcFinalize =
      some { refCount := 0, weak := false, finalized := true } := by decide
  refine ⟨hadd, rfl, hrel, ?_, ?_, ?_⟩
  · exact wrap_c4_lifetime.2.1 wrapInit _ hadd
  · exact wrap_c4_lifetime.2.2.1 _ _ rfl hrel
  · exact wrap_c4_lifetime.2.2.2.2 _ _ hreach0 hgc

/-- Claim C7: `[Getter(x), Setter(x)]` and `[Setter(x), Getter(x)]` each
register exactly one read-write accessor named `x`; `[Getter(x)]` alone
registers one read-only accessor; and a setter whose adjacent next item is
not a getter of the same name aborts registration (`::abort()` after the
failed `NJS_ASSERT`, modelled as `none`). -/
theorem bindClass_c7_accessor_pairing (x : String) (gf sf fl1 fl2 : Nat) :
    V8BindClassHelper
        [⟨kTypeGetter, fl1, x, gf⟩, ⟨kTypeSetter, fl2, x, sf⟩] =
      some [.accessor x gf (some sf) false] ∧
    V8BindClassHelper
        [⟨kTypeSetter, fl2, x, sf⟩, ⟨kTypeGetter, fl1, x, gf⟩] =
      some [.accessor x gf (some sf) false] ∧
    V8BindClassHelper [⟨kTypeGetter, fl1, x, gf⟩] =
      some [.accessor x gf none true] ∧
    (∀ rest : List BindingItem,
      (∀ next, rest.head? = some next → ¬(next.type = kTypeGetter ∧ next.name = x)) →
      V8BindClassHelper (⟨kTypeSetter, fl2, x, sf⟩ :: rest) = none) := by
  refine ⟨?_, ?_, ?_, ?_⟩
  · simp [V8BindClassHelper, kTypeGetter, kTypeSetter, kTypeStatic, kTypeMethod]
  · simp [V8BindClassHelper, kTypeGetter, kTypeSetter, kTypeStatic, kTypeMethod]
  · simp [V8BindClassHelper, kTypeGetter, kTypeSetter, kTypeStatic, kTypeMethod]
  · intro rest hrest
    cases rest with
    | nil =>
      simp [V8BindClassHelper, kTypeGetter, kTypeSetter, kTypeStatic, kTypeMethod]
    | cons next rest2 =>
      have hn := hrest next rfl
      rw [V8BindClassHelper]
      rw [if_neg (by simp [kTypeSetter, kTypeStatic]),
          if_neg (by simp [kTypeSetter, kTypeMethod]),
          if_pos (by simp [kTypeSetter, kTypeGetter])]
      simp only [show ((⟨kTypeSetter, fl2, x, sf⟩ : BindingItem).type = kTypeGetter) = False by
        simp [kTypeSetter, kTypeGetter]]
      rw [if_neg (by simpa using hn)]
      simp [kTypeSetter, kTypeGetter]

/-- Claim C7, witness: the setter-without-getter abort applied at the empty
tail and at a differently-named getter tail. -/
theorem bindClass_c7_accessor_pairing_witness :
    V8BindClassHelper [⟨kTypeSetter, 0, "a", 5⟩] = none ∧
    V8BindClassHelper [⟨kTypeSetter, 0, "a", 5⟩, ⟨kTypeGetter, 0, "b", 6⟩] = none := by
  constructor
  · exact (bindClass_c7_accessor_pairing "a" 0 5 0 0).2.2.2 [] (by intro next h; cases h)
  · exact (bindClass_c7_accessor_pairing "a" 0 5 0 0).2.2.2 [⟨kTypeGetter, 0, "b", 6⟩]
      (by
        intro next h
        simp only [List.head?] at h
        cases h
        decide)

/-- Claim C8: `Enum::deserialize` returns `InvalidValue` for every
non-string input and for every string whose length is zero or exceeds
`kMaxEnumSize = 64`, uniformly in the enum table — the quantification over
`e` shows the failure is decided before the table is scanned. -/
theorem enum_c8_deserialize_rejects (e : EnumT) (v : HostValue)
    (h : v.isStringV = false ∨ v.stringContent.length = 0 ∨
         v.stringContent.length > kMaxEnumSize) :
    e.deserialize v = .error kResultInvalidValue := by
  unfold EnumT.deserialize
  by_cases hs : v.isStringV = true
  · rw [if_neg (by simp [hs])]
    rcases h with h | h | h
    · rw [hs] at h; cases h
    · rw [if_pos (Or.inl h)]
    · rw [if_pos (Or.inr (Or.inl h))]
  · rw [if_pos (by simpa using hs)]

/-- Claim C8, witness: a number input, an empty string and a 65-unit string
are all rejected, regardless of the table. -/
theorem enum_c8_deserialize_rejects_witness :
    (HostValue.number 3).isStringV = false ∧
    (EnumT.mk 0 1 3 0 [97, 0, 98, 0]).deserialize (.number 3) =
      .error kResultInvalidValue ∧
    (HostValue.strval []).stringContent.length = 0 ∧
    (EnumT.mk 0 1 3 0 [97, 0, 98, 0]).deserialize (.strval []) =
      .error kResultInvalidValue ∧
    (HostValue.strval (List.replicate 65 97)).stringContent.length > kMaxEnumSize ∧
    (EnumT.mk 0 1 3 0 [97, 0, 98, 0]).deserialize (.strval (List.replicate 65 97)) =
      .error kResultInvalidValue := by
  refine ⟨by decide, ?_, by decide, ?_, by decide, ?_⟩
  · exact enum_c8_deserialize_rejects _ _ (Or.inl (by decide))
  · exact enum_c8_deserialize_rejects _ _ (Or.inr (Or.inl (by decide)))
  · exact enum_c8_deserialize_rejects _ _ (Or.inr (Or.inr (by decide)))

/-- Claim C10: whenever `stringify` yields the not-found sentinel or an
empty token for the record index computed from the input value,
`Enum::serialize` returns `InvalidValue` *and* sets the output host value to
a freshly created empty string — the output is a valid string value, not an
untouched or invalid handle. -/
theorem enum_c10_serialize_invalid_sets_empty (e : EnumT) (inVal : Int)
    (h : EnumUtils.stringifySize (((inVal - e.start) % 4294967296).toNat) e.data =
           EnumUtils.kEnumNotFound ∨
         EnumUtils.stringifySize (((inVal - e.start) % 4294967296).toNat) e.data = 0) :
    e.serialize inVal = (kResultInvalidValue, newEmptyString) ∧
    (e.serialize inVal).2.isStringV = true ∧
    (e.serialize inVal).2.stringContent = [] := by
  have hmain : e.serialize inVal = (kResultInvalidValue, newEmptyString) := by
    unfold EnumT.serialize
    unfold EnumUtils.stringifySize at h
    rcases hs : EnumUtils.stringify (((inVal - e.start) % 4294967296).toNat) e.data with
      _ | tok
    · simp [hs]
    · rw [hs] at h
      simp only at h
      simp only [hs]
      rw [if_pos h]
  refine ⟨hmain, ?_, ?_⟩ <;> rw [hmain] <;> rfl

/-- Claim C10, witness: on the two-entry table `"a", "b"` with start value
`0`, serialising the out-of-range value `5` yields `InvalidValue` with the
output set to the empty string. -/
theorem enum_c10_serialize_invalid_sets_empty_witness :
    (EnumUtils.stringifySize (((5 - (0 : Int)) % 4294967296).toNat)
        [97, 0, 98, 0] = EnumUtils.kEnumNotFound ∨
     EnumUtils.stringifySize (((5 - (0 : Int)) % 4294967296).toNat)
        [97, 0, 98, 0] = 0) ∧
    (EnumT.mk 0 1 3 0 [97, 0, 98, 0]).serialize 5 =
      (kResultInvalidValue, newEmptyString) := by
  have hsize : EnumUtils.stringifySize (((5 - (0 : Int)) % 4294967296).toNat)
      [97, 0, 98, 0] = EnumUtils.kEnumNotFound := by
    have h5 : (((5 - (0 : Int)) % 4294967296).toNat) = 5 := by decide
    rw [h5]
    simp [EnumUtils.stringifySize, EnumUtils.stringify, EnumUtils.stringifySkip,
      EnumUtils.skipString, EnumUtils.kAltEnumMarker, EnumUtils.incWrap]
  refine ⟨Or.inl hsize, ?_⟩
  exact (enum_c10_serialize_invalid_sets_empty (EnumT.mk 0 1 3 0 [97, 0, 98, 0]) 5
    (Or.inl hsize)).1

/-- Claim C5, counterexample: the well-formed table `"a\0@aa\0b"` has N = 2
entries — canonical tokens `"a"` (index 0) and `"b"` (index 1) plus the
alternate spelling `"aa"` of index 0 (`parse` maps `"a"` and `"aa"` to 0 and
`"b"` to 1).  Yet `stringify 1` stops on the alternate record and returns
the marker-prefixed token `"@aa"`, which `parse` does not recognise — so
`parse (stringify 1) = kEnumNotFound ≠ 1` for the valid index 1.  Moreover
`stringify 2` (index = N, out of range) returns an empty token of size 0,
not the `kEnumNotFound` sentinel the claim requires. -/
theorem enum_c5_counterexample :
    EnumUtils.parse [97] [97, 0, 64, 97, 97, 0, 98, 0] = 0 ∧
    EnumUtils.parse [97, 97] [97, 0, 64, 97, 97, 0, 98, 0] = 0 ∧
    EnumUtils.parse [98] [97, 0, 64, 97, 97, 0, 98, 0] = 1 ∧
    EnumUtils.stringify 1 [97, 0, 64, 97, 97, 0, 98, 0] = some [64, 97, 97] ∧
    EnumUtils.parse [64, 97, 97] [97, 0, 64, 97, 97, 0, 98, 0] =
      EnumUtils.kEnumNotFound ∧
    EnumUtils.kEnumNotFound ≠ 1 ∧
    EnumUtils.stringify 2 [97, 0, 64, 97, 97, 0, 98, 0] = some [] ∧
    EnumUtils.stringifySize 2 [97, 0, 64, 97, 97, 0, 98, 0] = 0 := by
  refine ⟨?_, ?_, ?_, ?_, ?_, by decide, ?_, ?_⟩ <;>
    simp [EnumUtils.parse, EnumUtils.parseMain, EnumUtils.recordStep,
      EnumUtils.matchTail, EnumUtils.skipString, EnumUtils.pRead,
      EnumUtils.kAltEnumMarker, EnumUtils.isIgnorableChar, EnumUtils.incWrap,
      EnumUtils.decWrap, EnumUtils.kEnumNotFound, EnumUtils.stringify,
      EnumUtils.stringifySize, EnumUtils.stringifySkip, EnumUtils.copyToken]

/-! ### Structured enum tables (spec §3)

A well-formed table is a list of entries, each a canonical token plus its
alternate spellings ("an alternate-name marker byte may prefix a token to
register a second accepted spelling without consuming an index").  `encTable`
produces exactly the blob the `NJS_ENUM` macro lays out: consecutive
NUL-terminated tokens, alternates directly after their canonical token,
prefixed by the marker byte. -/

structure EnumEntry where
  canon : List Nat
  alts : List (List Nat)
  deriving DecidableEq, Repr

def encRecord : Bool × List Nat → List Nat
  | (alt, t) => (if alt then [EnumUtils.kAltEnumMarker] else []) ++ t ++ [0]

def encRecords (rs : List (Bool × List Nat)) : List Nat :=
  (rs.map encRecord).join

def entryRecords (e : EnumEntry) : List (Bool × List Nat) :=
  (false, e.canon) :: e.alts.map (fun a => (true, a))

def tableRecords (es : List EnumEntry) : List (Bool × List Nat) :=
  (es.map entryRecords).join

def encTable (es : List EnumEntry) : List Nat :=
  encRecords (tableRecords es)

/-- A usable token: non-empty and free of NUL bytes. -/
def goodTok (t : List Nat) : Prop := t ≠ [] ∧ ∀ c ∈ t, c ≠ 0

def wfEntry (e : EnumEntry) : Prop :=
  goodTok e.canon ∧ e.canon.head? ≠ some EnumUtils.kAltEnumMarker ∧
  ∀ a ∈ e.alts, goodTok a

def wfTable (es : List EnumEntry) : Prop := ∀ e ∈ es, wfEntry e

instance (t : List Nat) : Decidable (goodTok t) := by
  unfold goodTok; infer_instance

instance (e : EnumEntry) : Decidable (wfEntry e) := by
  unfold wfEntry; infer_instance

instance (es : List EnumEntry) : Decidable (wfTable es) := by
  unfold wfTable; infer_instance

/-- The matching relation `parse` implements between a table token and an
input: the first byte must agree exactly; afterwards each input unit is
compared against the token with ignorable characters (`'-'`) of the *token*
skipped on mismatch, and the token must be exhausted exactly when the input
is. -/
def tokMatchTail : List Nat → List Nat → Bool
  | [], [] => true
  | [], _ :: _ => false
  | _ :: _, [] => false
  | a :: tr, b :: ir =>
    if a = b then tokMatchTail tr ir
    else if EnumUtils.isIgnorableChar a then tokMatchTail tr (b :: ir)
    else false

def tokenMatches (tok inp : List Nat) : Bool :=
  match tok, inp with
  | a :: tr, b :: ir => a = b && tokMatchTail tr ir
  | _, _ => false

/-! ### Scan lemmas for the enum table -/

theorem skipString_append {l : List Nat} (hl : ∀ c ∈ l, c ≠ 0)
    (rest : List Nat) : EnumUtils.skipString (l ++ 0 :: rest) = rest := by
  induction l with
  | nil => simp [EnumUtils.skipString]
  | cons c r ih =>
    have hc : c ≠ 0 := hl c (by simp)
    cases c with
    | zero => exact absurd rfl hc
    | succ n =>
      have : EnumUtils.skipString ((n + 1) :: (r ++ 0 :: rest)) =
          EnumUtils.skipString (r ++ 0 :: rest) := by
        simp [EnumUtils.skipString]
      simpa [this] using ih (fun c hm => hl c (by simp [hm]))

theorem copyToken_append {l : List Nat} (hl : ∀ c ∈ l, c ≠ 0)
    (rest : List Nat) : EnumUtils.copyToken (l ++ 0 :: rest) = l := by
  induction l with
  | nil => simp [EnumUtils.copyToken]
  | cons c r ih =>
    have hc : c ≠ 0 := hl c (by simp)
    cases c with
    | zero => exact absurd rfl hc
    | succ n =>
      have : EnumUtils.copyToken ((n + 1) :: (r ++ 0 :: rest)) =
          (n + 1) :: EnumUtils.copyToken (r ++ 0 :: rest) := by
        simp [EnumUtils.copyToken]
      rw [List.cons_append, this, ih (fun c hm => hl c (by simp [hm]))]

theorem matchTail_token_true {tr ir : List Nat} (htr : ∀ c ∈ tr, c ≠ 0)
    (rest : List Nat) (h : tokMatchTail tr ir = true) :
    EnumUtils.matchTail (tr ++ 0 :: rest) ir = none := by
  induction tr generalizing ir with
  | nil =>
    cases ir with
    | nil => simp [EnumUtils.matchTail]
    | cons b ir2 => simp [tokMatchTail] at h
  | cons a tr2 ih =>
    have ha : a ≠ 0 := htr a (by simp)
    cases a with
    | zero => exact absurd rfl ha
    | succ n =>
      cases ir with
      | nil => simp [tokMatchTail] at h
      | cons b ir2 =>
        simp only [tokMatchTail] at h
        rw [List.cons_append]
        simp only [EnumUtils.matchTail]
        by_cases hab : n + 1 = b
        · simp only [hab, if_true] at h ⊢
          exact ih (fun c hm => htr c (by simp [hm])) h
        · simp only [hab, if_false] at h ⊢
          by_cases hig : EnumUtils.isIgnorableChar (n + 1)
          · simp only [hig, if_true] at h ⊢
            exact ih (fun c hm => htr c (by simp [hm])) h
          · simp [hig] at h

theorem matchTail_token_false {tr ir : List Nat} (htr : ∀ c ∈ tr, c ≠ 0)
    (rest : List Nat) (h : tokMatchTail tr ir = false) :
    EnumUtils.matchTail (tr ++ 0 :: rest) ir = some rest := by
  induction tr generalizing ir with
  | nil =>
    cases ir with
    | nil => simp [tokMatchTail] at h
    | cons b ir2 => simp [EnumUtils.matchTail]
  | cons a tr2 ih =>
    have ha : a ≠ 0 := htr a (by simp)
    cases a with
    | zero => exact absurd rfl ha
    | succ n =>
      cases ir with
      | nil =>
        rw [List.cons_append]
        have : EnumUtils.matchTail ((n + 1) :: (tr2 ++ 0 :: rest)) [] =
            some (EnumUtils.skipString (tr2 ++ 0 :: rest)) := by
          simp [EnumUtils.matchTail]
        rw [this, skipString_append (fun c hm => htr c (by simp [hm]))]
      | cons b ir2 =>
        simp only [tokMatchTail] at h
        rw [List.cons_append]
        simp only [EnumUtils.matchTail]
        by_cases hab : n + 1 = b
        · simp only [hab, if_true] at h ⊢
          exact ih (fun c hm => htr c (by simp [hm])) h
        · simp only [hab, if_false] at h ⊢
          by_cases hig : EnumUtils.isIgnorableChar (n + 1)
          · simp only [hig, if_true] at h ⊢
            exact ih (fun c hm => htr c (by simp [hm])) h
          · rw [if_neg hig,
              skipString_append (fun c hm => htr c (by simp [hm]))]

theorem tokMatchTail_refl (t : List Nat) : tokMatchTail t t = true := by
  induction t with
  | nil => rfl
  | cons a tr ih => simp [tokMatchTail, ih]

theorem tokenMatches_refl {t : List Nat} (h : t ≠ []) :
    tokenMatches t t = true := by
  cases t with
  | nil => exact absurd rfl h
  | cons a tr => simp [tokenMatches, tokMatchTail_refl]

theorem recordStep_token_true {a : Nat} {tr inRest rest : List Nat}
    (htr : ∀ c ∈ tr, c ≠ 0)
    (hm : tokenMatches (a :: tr) (cbFirst :: inRest) = true) :
    EnumUtils.recordStep inRest cbFirst a (tr ++ 0 :: rest) = none := by
  simp only [tokenMatches, Bool.and_eq_true, decide_eq_true_eq] at hm
  unfold EnumUtils.recordStep
  rw [if_pos hm.1]
  exact matchTail_token_true htr rest hm.2

theorem recordStep_token_false {a : Nat} {tr inRest rest : List Nat}
    (htr : ∀ c ∈ tr, c ≠ 0)
    (hm : tokenMatches (a :: tr) (cbFirst :: inRest) = false) :
    EnumUtils.recordStep inRest cbFirst a (tr ++ 0 :: rest) = some rest := by
  simp only [tokenMatches, Bool.and_eq_false_iff] at hm
  unfold EnumUtils.recordStep
  by_cases hab : a = cbFirst
  · rw [if_pos hab]
    apply matchTail_token_false htr
    rcases hm with hm | hm
    · exact absurd hab (by simpa using hm)
    · exact hm
  · rw [if_neg hab]
    rw [skipString_append htr]

theorem incWrap_eq {i : Nat} (h : i + 1 < 4294967296) :
    EnumUtils.incWrap i = i + 1 := by
  unfold EnumUtils.incWrap
  omega

theorem decWrap_incWrap_eq {i : Nat} (h : 0 < i) (h2 : i < 4294967296) :
    EnumUtils.incWrap (EnumUtils.decWrap i) = i := by
  unfold EnumUtils.incWrap EnumUtils.decWrap
  omega

theorem parseMain_step_match {alt : Bool} {tok : List Nat} {cbFirst : Nat}
    {inRest : List Nat} (hg : goodTok tok)
    (hh : alt = false → tok.head? ≠ some EnumUtils.kAltEnumMarker)
    (hm : tokenMatches tok (cbFirst :: inRest) = true) (rest : List Nat) (idx : Nat) :
    EnumUtils.parseMain inRest cbFirst (encRecord (alt, tok) ++ rest) idx =
      if alt then EnumUtils.decWrap idx else idx := by
  obtain ⟨hne, hz⟩ := hg
  obtain ⟨a, tr, rfl⟩ : ∃ a tr, tok = a :: tr := by
    cases tok with
    | nil => exact absurd rfl hne
    | cons a tr => exact ⟨a, tr, rfl⟩
  have ha : a ≠ 0 := hz a (by simp)
  have htr : ∀ c ∈ tr, c ≠ 0 := fun c hc => hz c (by simp [hc])
  cases alt with
  | false =>
    have ha64 : a ≠ EnumUtils.kAltEnumMarker := by simpa using hh rfl
    have hblob : encRecord (false, a :: tr) ++ rest = a :: (tr ++ 0 :: rest) := by
      simp [encRecord]
    rw [hblob, EnumUtils.parseMain, if_neg ha, if_neg ha64,
      recordStep_token_true htr hm]
    simp
  | true =>
    have hblob : encRecord (true, a :: tr) ++ rest =
        EnumUtils.kAltEnumMarker :: (a :: (tr ++ 0 :: rest)) := by
      simp [encRecord]
    rw [hblob, EnumUtils.parseMain,
      if_neg (show EnumUtils.kAltEnumMarker ≠ 0 by decide), if_pos rfl]
    have hread1 : (EnumUtils.pRead (a :: (tr ++ 0 :: rest))).1 = a := rfl
    have hread2 : (EnumUtils.pRead (a :: (tr ++ 0 :: rest))).2 = tr ++ 0 :: rest := rfl
    rw [hread1, hread2, recordStep_token_true htr hm]
    simp

theorem parseMain_step_nomatch {alt : Bool} {tok : List Nat} {cbFirst : Nat}
    {inRest : List Nat} (hg : goodTok tok)
    (hh : alt = false → tok.head? ≠ some EnumUtils.kAltEnumMarker)
    (hm : tokenMatches tok (cbFirst :: inRest) = false) (rest : List Nat) (idx : Nat) :
    EnumUtils.parseMain inRest cbFirst (encRecord (alt, tok) ++ rest) idx =
      EnumUtils.parseMain inRest cbFirst rest
        (EnumUtils.incWrap (if alt then EnumUtils.decWrap idx else idx)) := by
  obtain ⟨hne, hz⟩ := hg
  obtain ⟨a, tr, rfl⟩ : ∃ a tr, tok = a :: tr := by
    cases tok with
    | nil => exact absurd rfl hne
    | cons a tr => exact ⟨a, tr, rfl⟩
  have ha : a ≠ 0 := hz a (by simp)
  have htr : ∀ c ∈ tr, c ≠ 0 := fun c hc => hz c (by simp [hc])
  cases alt with
  | false =>
    have ha64 : a ≠ EnumUtils.kAltEnumMarker := by simpa using hh rfl
    have hblob : encRecord (false, a :: tr) ++ rest = a :: (tr ++ 0 :: rest) := by
      simp [encRecord]
    rw [hblob, EnumUtils.parseMain, if_neg ha, if_neg ha64,
      recordStep_token_false htr hm]
    simp
  | true =>
    have hblob : encRecord (true, a :: tr) ++ rest =
        EnumUtils.kAltEnumMarker :: (a :: (tr ++ 0 :: rest)) := by
      simp [encRecord]
    rw [hblob, EnumUtils.parseMain,
      if_neg (show EnumUtils.kAltEnumMarker ≠ 0 by decide), if_pos rfl]
    have hread1 : (EnumUtils.pRead (a :: (tr ++ 0 :: rest))).1 = a := rfl
    have hread2 : (EnumUtils.pRead (a :: (tr ++ 0 :: rest))).2 = tr ++ 0 :: rest := rfl
    rw [hread1, hread2, recordStep_token_false htr hm]
    simp

theorem encRecords_cons (r : Bool × List Nat) (rs : List (Bool × List Nat)) :
    encRecords (r :: rs) = encRecord r ++ encRecords rs := by
  simp [encRecords]

theorem encRecords_append (rs1 rs2 : List (Bool × List Nat)) :
    encRecords (rs1 ++ rs2) = encRecords rs1 ++ encRecords rs2 := by
  simp [encRecords]

theorem tableRecords_cons (e : EnumEntry) (es : List EnumEntry) :
    tableRecords (e :: es) = entryRecords e ++ tableRecords es := by
  simp [tableRecords]

theorem parseMain_alts_shift {alts : List (List Nat)} {cbFirst : Nat}
    {inRest : List Nat}
    (hg : ∀ t ∈ alts, goodTok t ∧ tokenMatches t (cbFirst :: inRest) = false)
    {idx : Nat} (h1 : 0 < idx) (h2 : idx < 4294967296) (tail : List Nat) :
    EnumUtils.parseMain inRest cbFirst
      (encRecords (alts.map (fun a => (true, a))) ++ tail) idx =
    EnumUtils.parseMain inRest cbFirst tail idx := by
  induction alts with
  | nil => simp [encRecords]
  | cons t ts ih =>
    have hgt := hg t (by simp)
    have hassoc :
        encRecords (((t :: ts).map (fun a => (true, a)))) ++ tail =
        encRecord (true, t) ++ (encRecords (ts.map (fun a => (true, a))) ++ tail) := by
      rw [List.map_cons, encRecords_cons, List.append_assoc]
    rw [hassoc,
      parseMain_step_nomatch hgt.1 (by simp) hgt.2
        (encRecords (ts.map (fun a => (true, a))) ++ tail) idx]
    rw [if_pos rfl, decWrap_incWrap_eq h1 h2]
    exact ih (fun t' ht' => hg t' (by simp [ht']))

theorem parseMain_entries {es : List EnumEntry} {a : Nat} {tr : List Nat}
    {i base : Nat} (hwf : wfTable es) (hi : i < es.length)
    (hmatch : tokenMatches (es.get ⟨i, hi⟩).canon (a :: tr) = true)
    (hbefore : ∀ j (hj : j < es.length), j < i →
      tokenMatches (es.get ⟨j, hj⟩).canon (a :: tr) = false ∧
      ∀ alt ∈ (es.get ⟨j, hj⟩).alts, tokenMatches alt (a :: tr) = false)
    (hbase : base + es.length < 4294967296) :
    EnumUtils.parseMain tr a (encTable es) base = base + i := by
  induction es generalizing i base with
  | nil => exact absurd hi (by simp)
  | cons e es' ih =>
    have hwfe : wfEntry e := hwf e (by simp)
    have hblob : encTable (e :: es') =
        encRecord (false, e.canon) ++
          (encRecords (e.alts.map (fun a => (true, a))) ++ encTable es') := by
      unfold encTable
      rw [tableRecords_cons]
      unfold entryRecords
      rw [encRecords_append, encRecords_cons, List.append_assoc]
    cases i with
    | zero =>
      have hm0 : tokenMatches e.canon (a :: tr) = true := by
        simpa using hmatch
      rw [hblob, parseMain_step_match hwfe.1 (fun _ => hwfe.2.1) hm0]
      simp
    | succ j =>
      have hmc : tokenMatches e.canon (a :: tr) = false :=
        (hbefore 0 (by simp) (by omega)).1
      have hma : ∀ alt ∈ e.alts, tokenMatches alt (a :: tr) = false :=
        (hbefore 0 (by simp) (by omega)).2
      rw [hblob, parseMain_step_nomatch hwfe.1 (fun _ => hwfe.2.1) hmc]
      rw [if_neg (by simp), incWrap_eq (by simp at hbase; omega)]
      rw [parseMain_alts_shift
        (fun t ht => ⟨hwfe.2.2 t ht, hma t ht⟩) (by omega)
        (by simp at hbase; omega) (encTable es')]
      have hj : j < es'.length := by simpa using Nat.lt_of_succ_lt_succ hi
      have hres := ih (fun e' he' => hwf e' (by simp [he'])) hj
        (by simpa using hmatch)
        (fun k hk hklt => by
          have := hbefore (k + 1) (by simpa using Nat.succ_lt_succ hk)
            (Nat.succ_lt_succ hklt)
          simpa using this)
        (show base + 1 + es'.length < 4294967296 by simp at hbase; omega)
      rw [hres]
      omega

theorem parseMain_entries_nomatch {es : List EnumEntry} {a : Nat}
    {tr : List Nat} {base : Nat} (hwf : wfTable es)
    (hall : ∀ e ∈ es, tokenMatches e.canon (a :: tr) = false ∧
      ∀ alt ∈ e.alts, tokenMatches alt (a :: tr) = false)
    (hbase : base + es.length < 4294967296) :
    EnumUtils.parseMain tr a (encTable es) base = EnumUtils.kEnumNotFound := by
  induction es generalizing base with
  | nil =>
    show EnumUtils.parseMain tr a [] base = EnumUtils.kEnumNotFound
    rw [EnumUtils.parseMain]
  | cons e es' ih =>
    have hwfe : wfEntry e := hwf e (by simp)
    have hblob : encTable (e :: es') =
        encRecord (false, e.canon) ++
          (encRecords (e.alts.map (fun a => (true, a))) ++ encTable es') := by
      unfold encTable
      rw [tableRecords_cons]
      unfold entryRecords
      rw [encRecords_append, encRecords_cons, List.append_assoc]
    have hme := hall e (by simp)
    rw [hblob, parseMain_step_nomatch hwfe.1 (fun _ => hwfe.2.1) hme.1]
    rw [if_neg (by simp), incWrap_eq (by simp at hbase; omega)]
    rw [parseMain_alts_shift
      (fun t ht => ⟨hwfe.2.2 t ht, hme.2 t ht⟩) (by omega)
      (by simp at hbase; omega) (encTable es')]
    exact ih (fun e' he' => hwf e' (by simp [he']))
      (fun e' he' => hall e' (by simp [he']))
      (show base + 1 + es'.length < 4294967296 by simp at hbase; omega)

theorem stringifySkip_cons {index i c : Nat} {r : List Nat}
    (hne : i ≠ index) (hc : c ≠ 0) :
    EnumUtils.stringifySkip index (c :: r) i =
      EnumUtils.stringifySkip index (EnumUtils.skipString r)
        (if c = EnumUtils.kAltEnumMarker then i else EnumUtils.incWrap i) := by
  rw [EnumUtils.stringifySkip, if_neg hne]
  · rfl
  · exact fun h => hc h

theorem stringifySkip_step_canon {index i : Nat} (hne : i ≠ index)
    {t : List Nat} (hg : goodTok t)
    (hh : t.head? ≠ some EnumUtils.kAltEnumMarker) (rest : List Nat) :
    EnumUtils.stringifySkip index (encRecord (false, t) ++ rest) i =
      EnumUtils.stringifySkip index rest (EnumUtils.incWrap i) := by
  obtain ⟨hne', hz⟩ := hg
  obtain ⟨a, tr, rfl⟩ : ∃ a tr, t = a :: tr := by
    cases t with
    | nil => exact absurd rfl hne'
    | cons a tr => exact ⟨a, tr, rfl⟩
  have ha : a ≠ 0 := hz a (by simp)
  have ha64 : a ≠ EnumUtils.kAltEnumMarker := by simpa using hh
  have htr : ∀ c ∈ tr, c ≠ 0 := fun c hc => hz c (by simp [hc])
  have hblob : encRecord (false, a :: tr) ++ rest = a :: (tr ++ 0 :: rest) := by
    simp [encRecord]
  rw [hblob, stringifySkip_cons hne ha, if_neg ha64, skipString_append htr]

theorem stringifySkip_step_alt {index i : Nat} (hne : i ≠ index)
    {t : List Nat} (hg : goodTok t) (rest : List Nat) :
    EnumUtils.stringifySkip index (encRecord (true, t) ++ rest) i =
      EnumUtils.stringifySkip index rest i := by
  obtain ⟨hne', hz⟩ := hg
  have hblob : encRecord (true, t) ++ rest =
      EnumUtils.kAltEnumMarker :: (t ++ 0 :: rest) := by
    simp [encRecord]
  rw [hblob, stringifySkip_cons hne (show EnumUtils.kAltEnumMarker ≠ 0 by decide),
    if_pos rfl, skipString_append hz]

theorem stringifySkip_alts {alts : List (List Nat)} {index i : Nat}
    (hg : ∀ t ∈ alts, goodTok t) (hne : i ≠ index) (rest : List Nat) :
    EnumUtils.stringifySkip index
      (encRecords (alts.map (fun a => (true, a))) ++ rest) i =
      EnumUtils.stringifySkip index rest i := by
  induction alts with
  | nil => simp [encRecords]
  | cons t ts ih =>
    have hassoc :
        encRecords (((t :: ts).map (fun a => (true, a)))) ++ rest =
        encRecord (true, t) ++ (encRecords (ts.map (fun a => (true, a))) ++ rest) := by
      rw [List.map_cons, encRecords_cons, List.append_assoc]
    rw [hassoc, stringifySkip_step_alt hne (hg t (by simp))]
    exact ih (fun t2 ht2 => hg t2 (by simp [ht2]))

theorem stringifySkip_entry {e : EnumEntry} {index i : Nat} (hwf : wfEntry e)
    (h1 : i ≠ index) (h2 : e.alts ≠ [] → EnumUtils.incWrap i ≠ index)
    (rest : List Nat) :
    EnumUtils.stringifySkip index (encRecords (entryRecords e) ++ rest) i =
      EnumUtils.stringifySkip index rest (EnumUtils.incWrap i) := by
  have hassoc :
      encRecords (entryRecords e) ++ rest =
      encRecord (false, e.canon) ++
        (encRecords (e.alts.map (fun a => (true, a))) ++ rest) := by
    unfold entryRecords
    rw [encRecords_cons, List.append_assoc]
  rw [hassoc, stringifySkip_step_canon h1 hwf.1 hwf.2.1]
  cases halts : e.alts with
  | nil => simp [halts, encRecords]
  | cons t ts =>
    rw [← halts]
    exact stringifySkip_alts hwf.2.2 (h2 (by simp [halts])) rest

theorem stringifySkip_find {es : List EnumEntry} {i base : Nat}
    (hwf : wfTable es) (hi : i < es.length)
    (hcond : i = 0 ∨ ∀ (hj : i - 1 < es.length), (es.get ⟨i - 1, hj⟩).alts = [])
    (hbase : base + es.length < 4294967296) (tail : List Nat) :
    EnumUtils.stringifySkip (base + i)
      (encRecords (tableRecords es) ++ tail) base =
      some (encRecords (tableRecords (es.drop i)) ++ tail) := by
  induction es generalizing i base with
  | nil => exact absurd hi (by simp)
  | cons e es2 ih =>
    cases i with
    | zero =>
      rw [EnumUtils.stringifySkip.eq_def]
      dsimp only
      rw [if_pos (by omega)]
      simp
    | succ j =>
      have hwfe : wfEntry e := hwf e (by simp)
      have hstep := stringifySkip_entry hwfe
        (show base ≠ base + (j + 1) by omega)
        (fun halts => by
          rw [incWrap_eq (by simp at hbase; omega)]
          intro hcontra
          have hj0 : j = 0 := by omega
          rcases hcond with h0 | hc
          · exact absurd h0 (by omega)
          · subst hj0
            exact absurd (hc (by simp)) halts)
        (encRecords (tableRecords es2) ++ tail)
      rw [tableRecords_cons, encRecords_append, List.append_assoc]
      rw [hstep, incWrap_eq (by simp at hbase; omega)]
      have hj : j < es2.length := by simpa using Nat.lt_of_succ_lt_succ hi
      have harith : base + (j + 1) = base + 1 + j := by omega
      rw [harith]
      have hres := ih (fun e2 he2 => hwf e2 (by simp [he2])) hj
        (by
          rcases Nat.eq_zero_or_pos j with hj0 | hjpos
          · exact Or.inl hj0
          · right
            obtain ⟨k, rfl⟩ : ∃ k, j = k + 1 := ⟨j - 1, by omega⟩
            intro hjj
            rcases hcond with h0 | hc
            · exact absurd h0 (by omega)
            · have hcc := hc (show k + 1 < (e :: es2).length by simp; omega)
              simpa using hcc)
        (show base + 1 + es2.length < 4294967296 by simp at hbase; omega)
      rw [hres]
      simp

theorem stringifySkip_past {es : List EnumEntry} {index base : Nat}
    (hwf : wfTable es) (hgt : base + es.length < index)
    (hno : base + es.length < 4294967296) (tail : List Nat) :
    EnumUtils.stringifySkip index (encRecords (tableRecords es) ++ tail) base =
      EnumUtils.stringifySkip index tail (base + es.length) := by
  induction es generalizing base with
  | nil => simp [tableRecords, encRecords]
  | cons e es2 ih =>
    have hwfe : wfEntry e := hwf e (by simp)
    have hstep := stringifySkip_entry hwfe
      (show base ≠ index by simp at hgt; omega)
      (fun _ => by rw [incWrap_eq (by simp at hno; omega)]; simp at hgt; omega)
      (encRecords (tableRecords es2) ++ tail)
    rw [tableRecords_cons, encRecords_append, List.append_assoc]
    rw [hstep, incWrap_eq (by simp at hno; omega)]
    have hres := ih (fun e2 he2 => hwf e2 (by simp [he2]))
      (show base + 1 + es2.length < index by simp at hgt; omega)
      (show base + 1 + es2.length < 4294967296 by simp at hno; omega)
    rw [hres]
    have harith : base + 1 + es2.length = base + (e :: es2).length := by
      simp
      omega
    rw [harith]

theorem enumEntry_drop_eq_get_cons {es : List EnumEntry} {i : Nat}
    (hi : i < es.length) :
    es.drop i = es.get ⟨i, hi⟩ :: es.drop (i + 1) := by
  rw [List.drop_eq_getElem_cons hi]
  simp

/-- Claim C5 (amended): for a well-formed table of `N` entries (each a
canonical token with its alternate spellings, at most `2^32 - 2` entries,
tokens mutually unmatched), `parse (stringify i) = i` holds for every valid
index `i` whose *preceding* entry carries no alternate spellings (`stringify`
stops one record after the previous canonical token, so an alternate there is
returned instead — alternates attached to the final entry are harmless);
`parse` of a token matching no table record returns `kEnumNotFound`; and
`stringify` of an index strictly greater than `N` returns `kEnumNotFound`
(for index `= N` it instead produces an empty or alternate token, see the
counterexample). -/
theorem enum_c5_roundtrip_amended (es : List EnumEntry) (hwf : wfTable es)
    (hlen : es.length < 4294967295) :
    (∀ i (hi : i < es.length),
      (i = 0 ∨ ∀ (hj : i - 1 < es.length), (es.get ⟨i - 1, hj⟩).alts = []) →
      (∀ j (hj : j < es.length), j ≠ i →
        tokenMatches (es.get ⟨j, hj⟩).canon ((es.get ⟨i, hi⟩).canon) = false ∧
        ∀ alt ∈ (es.get ⟨j, hj⟩).alts,
          tokenMatches alt ((es.get ⟨i, hi⟩).canon) = false) →
      EnumUtils.stringify i (encTable es) = some ((es.get ⟨i, hi⟩).canon) ∧
      EnumUtils.parse ((es.get ⟨i, hi⟩).canon) (encTable es) = i) ∧
    (∀ inp : List Nat,
      (∀ e ∈ es, tokenMatches e.canon inp = false ∧
        ∀ alt ∈ e.alts, tokenMatches alt inp = false) →
      EnumUtils.parse inp (encTable es) = EnumUtils.kEnumNotFound) ∧
    (∀ i, es.length < i → EnumUtils.stringify i (encTable es) = none) := by
  have happ : encTable es = encRecords (tableRecords es) ++ [] := by
    simp [encTable]
  refine ⟨?_, ?_, ?_⟩
  · intro i hi hcond hdist
    have hwfi : wfEntry (es.get ⟨i, hi⟩) := hwf _ (es.get_mem i hi)
    constructor
    · unfold EnumUtils.stringify
      rw [happ]
      have hfind := @stringifySkip_find es i 0 hwf hi hcond (by omega) []
      simp only [Nat.zero_add] at hfind
      rw [hfind]
      rw [enumEntry_drop_eq_get_cons hi, tableRecords_cons]
      unfold entryRecords
      rw [encRecords_append, encRecords_cons]
      have hshape :
          ((encRecord (false, (es.get ⟨i, hi⟩).canon) ++
              encRecords ((es.get ⟨i, hi⟩).alts.map (fun a => (true, a)))) ++
            encRecords (tableRecords (es.drop (i + 1)))) ++ [] =
          (es.get ⟨i, hi⟩).canon ++ 0 ::
            (encRecords ((es.get ⟨i, hi⟩).alts.map (fun a => (true, a))) ++
              encRecords (tableRecords (es.drop (i + 1)))) := by
        simp [encRecord]
      rw [hshape]
      simp only [Option.map_some']
      rw [copyToken_append hwfi.1.2]
    · obtain ⟨a, tr, hcanon⟩ : ∃ a tr, (es.get ⟨i, hi⟩).canon = a :: tr := by
        rcases hc : (es.get ⟨i, hi⟩).canon with _ | ⟨a, tr⟩
        · exact absurd hc hwfi.1.1
        · exact ⟨a, tr, rfl⟩
      rw [hcanon]
      show EnumUtils.parseMain tr a (encTable es) 0 = i
      have hres := @parseMain_entries es a tr i 0 hwf hi
        (by rw [hcanon]; exact tokenMatches_refl (by simp))
        (fun j hj hlt => by
          rw [← hcanon]
          exact hdist j hj (by omega))
        (by omega)
      simpa using hres
  · intro inp hall
    cases inp with
    | nil => rfl
    | cons a tr =>
      show EnumUtils.parseMain tr a (encTable es) 0 = EnumUtils.kEnumNotFound
      exact @parseMain_entries_nomatch es a tr 0 hwf
        (fun e he => hall e he) (by omega)
  · intro i hgt
    unfold EnumUtils.stringify
    rw [happ, stringifySkip_past hwf (by omega) (by omega) []]
    rw [EnumUtils.stringifySkip.eq_def]
    dsimp only
    rw [if_neg (by omega)]
    rfl

/-- Claim C5, witness for the amended theorem: the well-formed two-entry
table with canonical tokens `"a"`, `"b"` and an alternate `"bb"` attached to
the final entry round-trips both valid indices, rejects the unknown token
`"c"`, and stringifies the out-of-range index 3 to the sentinel. -/
theorem enum_c5_roundtrip_amended_witness :
    wfTable [⟨[97], []⟩, ⟨[98], [[98, 98]]⟩] ∧
    EnumUtils.stringify 0 (encTable [⟨[97], []⟩, ⟨[98], [[98, 98]]⟩]) =
      some [97] ∧
    EnumUtils.parse [97] (encTable [⟨[97], []⟩, ⟨[98], [[98, 98]]⟩]) = 0 ∧
    EnumUtils.stringify 1 (encTable [⟨[97], []⟩, ⟨[98], [[98, 98]]⟩]) =
      some [98] ∧
    EnumUtils.parse [98] (encTable [⟨[97], []⟩, ⟨[98], [[98, 98]]⟩]) = 1 ∧
    EnumUtils.parse [99] (encTable [⟨[97], []⟩, ⟨[98], [[98, 98]]⟩]) =
      EnumUtils.kEnumNotFound ∧
    EnumUtils.stringify 3 (encTable [⟨[97], []⟩, ⟨[98], [[98, 98]]⟩]) = none := by
  have h := enum_c5_roundtrip_amended [⟨[97], []⟩, ⟨[98], [[98, 98]]⟩]
    (by decide) (by decide)
  have h0 := h.1 0 (by decide) (Or.inl rfl) (by decide)
  have h1 := h.1 1 (by decide) (Or.inr (fun _ => rfl)) (by decide)
  exact ⟨by decide, h0.1, h0.2, h1.1, h1.2, h.2.1 [99] (by decide),
    h.2.2 3 (by decide)⟩

end njs
